import Mathlib

/-!
Verification of the candlestick signal engine of stock_analyzer.py
(candlestick_alert_app_india).

The Python module is shallowly embedded: prices are rational numbers,
pandas DataFrames become lists of records, the implicit current time
(datetime.now) is threaded as an explicit Date parameter, and the
Python round(x, 2) becomes round2 below (round half to even at 2 decimal
places, the rounding Python documents; exact float representation is
out of scope of this rational model).
-/

/- The Batteries library marks the rational operations irreducible,
which blocks kernel evaluation of concrete witnesses; restore the
default reducibility for this file. -/
attribute [local semireducible] Rat.mul Rat.add Rat.sub Rat.inv

/-- A calendar date as used by the analyzer: datetime restricted to the
(year, month, day) components the module reads. Years are integers so
that month arithmetic is total. -/
structure Date where
  year : Int
  month : Nat
  day : Nat
  deriving DecidableEq, Repr

/-- One application of relativedelta(months=1) subtraction: the day
component is kept (the module only subtracts months from day-1 dates). -/
def subOneMonth (d : Date) : Date :=
  if d.month ≤ 1 then ⟨d.year - 1, 12, d.day⟩ else ⟨d.year, d.month - 1, d.day⟩

/-- One application of relativedelta(months=1) addition. -/
def addOneMonth (d : Date) : Date :=
  if 12 ≤ d.month then ⟨d.year + 1, 1, d.day⟩ else ⟨d.year, d.month + 1, d.day⟩

/-- Iterated month subtraction (relativedelta(months=k)). -/
def subMonths (d : Date) (k : Nat) : Date := subOneMonth^[k] d

/-- Iterated month addition. -/
def addMonths (d : Date) (k : Nat) : Date := addOneMonth^[k] d

/-- Embeds get_last_two_complete_months (stock_analyzer.py lines 24-40).
The source reads datetime.now(); here the current instant is the
explicit parameter now. Returns (previous_month, last_complete_month),
both with day = 1. -/
def get_last_two_complete_months (now : Date) : Date × Date :=
  let first_of_this_month : Date := { now with day := 1 }
  let last_complete_month := subOneMonth first_of_this_month
  let previous_month := subOneMonth last_complete_month
  (previous_month, last_complete_month)

/-- Specification-side month counter: months elapsed since month 1 of
year 0. Used only to state what "minus k months" means in claims. -/
def monthIndex (d : Date) : Int := 12 * d.year + ((d.month : Int) - 1)

/-- Specification-side inverse of monthIndex, landing on the first day
of the month. Uses floor division so it is correct for all years. -/
def dateOfMonthIndex (n : Int) : Date :=
  ⟨Int.fdiv n 12, (Int.fmod n 12).toNat + 1, 1⟩

/-- One monthly OHLCV bar (a row of the DataFrame handed to the
analyzer): date, open, high, low, close, volume, symbol. -/
structure Bar where
  date : Date
  «open» : ℚ
  high : ℚ
  low : ℚ
  close : ℚ
  volume : Int
  symbol : String
  deriving DecidableEq, Repr

/-- A classified bar: a raw bar plus the derived columns process_data
adds (is_green, is_red, candle_color, price_change, price_change_pct,
body_size, and the shifted previous-bar columns). -/
structure CBar extends Bar where
  is_green : Bool
  is_red : Bool
  candle_color : String
  price_change : ℚ
  price_change_pct : ℚ
  body_size : ℚ
  prev_open : Option ℚ
  prev_close : Option ℚ
  prev_color : Option String
  deriving DecidableEq, Repr

/-- The candle_color value of a bar: green iff close > open, red iff
close < open, neutral otherwise (lines 217-220). -/
def candleColor (b : Bar) : String :=
  if b.close > b.«open» then "green" else if b.close < b.«open» then "red" else "neutral"

/-- Classification of one row given the previous row (if any): the body
of process_data for a single DataFrame row. Division by a zero open
follows the rational convention x / 0 = 0 (the source would raise
there; no claim depends on a zero open). -/
def classifyOne (prev : Option Bar) (b : Bar) : CBar :=
  { toBar := b
    is_green := decide (b.close > b.«open»)
    is_red := decide (b.close < b.«open»)
    candle_color := candleColor b
    price_change := b.close - b.«open»
    price_change_pct := (b.close - b.«open») / b.«open» * 100
    body_size := |b.close - b.«open»|
    prev_open := prev.map (fun p => p.«open»)
    prev_close := prev.map (fun p => p.close)
    prev_color := prev.map candleColor }

/-- Embeds CandlestickAnalyzer.process_data (lines 202-234): adds the
derived columns; the shift(1) columns pair each row with its
predecessor (none for the first row). -/
def process_data (bars : List Bar) : List CBar :=
  ((none :: bars.map some).zip bars).map fun pb => classifyOne pb.1 pb.2

/-- Round half to even to the nearest integer (the rounding rule of
the Python builtin round on exact values). -/
def roundHalfEven (q : ℚ) : ℤ :=
  let f := ⌊q⌋
  let r := q - f
  if r < 1 / 2 then f
  else if 1 / 2 < r then f + 1
  else if f % 2 = 0 then f else f + 1

/-- The Python round(x, 2) on exact rational values. -/
def round2 (q : ℚ) : ℚ := (roundHalfEven (q * 100) : ℚ) / 100

/-- An emitted buy/sell signal. The display-only fields of the source
dicts (reason, current_month, previous_month: formatted strings used
for human-readable output only) are omitted. -/
structure Signal where
  type : String
  symbol : String
  date : Date
  current_close : ℚ
  current_open : ℚ
  prev_open : ℚ
  prev_close : ℚ
  strength : ℚ
  deriving DecidableEq, Repr

/-- The BUY signal dict built by generate_signals (lines 263-273). -/
def mkBuySignal (previous current : CBar) : Signal :=
  { type := "BUY"
    symbol := current.symbol
    date := current.date
    current_close := round2 current.close
    current_open := round2 current.«open»
    prev_open := round2 previous.«open»
    prev_close := round2 previous.close
    strength := round2 ((current.close - previous.«open») / previous.«open» * 100) }

/-- The SELL signal dict built by generate_signals (lines 279-289). -/
def mkSellSignal (previous current : CBar) : Signal :=
  { type := "SELL"
    symbol := current.symbol
    date := current.date
    current_close := round2 current.close
    current_open := round2 current.«open»
    prev_open := round2 previous.«open»
    prev_close := round2 previous.close
    strength := round2 ((previous.«open» - current.close) / previous.«open» * 100) }

/-- The per-pair body of the signal loop (lines 257-292): BUY when the
current row is green, the previous row is red and current close exceeds
previous open; else SELL when current is red, previous is green and
current close is below previous open; else no signal. The anchored
algorithm (lines 369-405) applies the same predicate and formulas to
its selected pair (its extra month-label fields are display-only and
omitted here). -/
def signalForPair (previous current : CBar) : Option Signal :=
  if current.is_green ∧ previous.is_red ∧ current.close > previous.«open» then
    some (mkBuySignal previous current)
  else if current.is_red ∧ previous.is_green ∧ current.close < previous.«open» then
    some (mkSellSignal previous current)
  else none

/-- Embeds CandlestickAnalyzer.generate_signals (lines 236-294): runs
process_data, then the loop for i in range(1, len(df)) over the pairs
(df[i-1], df[i]), collecting the emitted signals in order. -/
def generate_signals (data : List Bar) : List Signal :=
  let df := process_data data
  (df.zip df.tail).filterMap fun pc => signalForPair pc.1 pc.2

/-- The rows of a classified sequence whose date lies in the
(year, month) of the anchor m: the DataFrame filter of lines 340-349. -/
def monthFilter (m : Date) (df : List CBar) : List CBar :=
  df.filter fun r => r.date.year == m.year && r.date.month == m.month

/-- The pair-selection logic of generate_signal_for_last_two_months
(lines 326-360): the guard for fewer than 2 bars, the two calendar
month filters, the fallback to the last two rows (df.iloc[[-2]] and
df.iloc[[-1]]) when either filter is empty with its own
fewer-than-2-rows guard, and the first row of each selected set. -/
def selectPairForLastTwoMonths (now : Date) (data : List Bar) : Option (CBar × CBar) :=
  if data.length < 2 then none
  else
    let months := get_last_two_complete_months now
    let df := process_data data
    match monthFilter months.1 df, monthFilter months.2 df with
    | p :: _, c :: _ => some (p, c)
    | _, _ =>
      match df.reverse with
      | c :: p :: _ => some (p, c)
      | _ => none

/-- Embeds CandlestickAnalyzer.generate_signal_for_last_two_months
(lines 311-407): select the (previous, current) pair anchored to the
two completed calendar months of now, then apply the BUY/SELL
predicate. The source repeats the predicate and formulas of
generate_signals inline (with float casts and display month labels);
the arithmetic is identical, so signalForPair is reused. -/
def generate_signal_for_last_two_months (now : Date) (data : List Bar) : Option Signal :=
  match selectPairForLastTwoMonths now data with
  | none => none
  | some (previous, current) => signalForPair previous current

/-- One entry of the errors list of a scan report. -/
structure ErrorEntry where
  symbol : String
  message : String
  deriving DecidableEq, Repr

/-- The per-symbol analysis dict of analyze_stock (lines 443-454) in
the success case. The display-only comparison_months string and the
wall-clock last_updated timestamp are omitted. -/
structure StockAnalysis where
  symbol : String
  current_price : ℚ
  current_trend : String
  candle_color : String
  price_change_pct : ℚ
  latest_signal : Option Signal
  total_signals : Nat
  deriving DecidableEq, Repr

/-- The result dict of analyze_stock: status error with a message, or
status success with the analysis fields. -/
inductive AnalyzeResult where
  | failure (symbol message : String)
  | success (a : StockAnalysis)
  deriving DecidableEq, Repr

/-- Embeds CandlestickAnalyzer.analyze_stock (lines 409-454). The data
source (fetch_candlestick_data) is the explicit parameter fetch; none
models both a fetch returning None and an empty frame after the
data.empty check (process_data data is empty exactly when data is). -/
def analyze_stock (fetch : String → Option (List Bar)) (now : Date) (symbol : String) :
    AnalyzeResult :=
  match fetch symbol with
  | none => .failure symbol "Failed to fetch data"
  | some data =>
    match process_data data with
    | [] => .failure symbol "Failed to fetch data"
    | c :: cs =>
      let current := (c :: cs).getLast (List.cons_ne_nil c cs)
      .success
        { symbol := symbol
          current_price := round2 current.close
          current_trend := if current.is_green then "bullish" else "bearish"
          candle_color := current.candle_color
          price_change_pct := round2 current.price_change_pct
          latest_signal := generate_signal_for_last_two_months now data
          total_signals := (generate_signals data).length }

/-- The summary dict of scan_all_stocks (lines 522-529). -/
structure ScanSummary where
  total_scanned : Nat
  buy_signals_count : Nat
  sell_signals_count : Nat
  bullish_count : Nat
  bearish_count : Nat
  error_count : Nat
  deriving DecidableEq, Repr

/-- The mutable results dict of scan_all_stocks during the loop
(lines 467-476), before the summary is attached. -/
structure ScanAcc where
  buy_signals : List StockAnalysis := []
  sell_signals : List StockAnalysis := []
  bullish_stocks : List StockAnalysis := []
  bearish_stocks : List StockAnalysis := []
  all_stocks : List StockAnalysis := []
  errors : List ErrorEntry := []
  deriving DecidableEq, Repr

/-- The scan report: the results dict with the total_stocks count and
the summary (the scan_time timestamp is omitted). -/
structure ScanReport extends ScanAcc where
  total_stocks : Nat
  summary : ScanSummary
  deriving DecidableEq, Repr

/-- The loop body of scan_all_stocks (lines 478-509) for one symbol.
The analyze argument is the outcome of self.analyze_stock(symbol):
Except.error models an unexpected exception caught by the
try/except (line 504), Except.ok a returned result dict. -/
def scanStep (acc : ScanAcc) (symbol : String) (res : Except String AnalyzeResult) : ScanAcc :=
  match res with
  | .error e => { acc with errors := acc.errors ++ [⟨symbol, e⟩] }
  | .ok (.failure _ message) => { acc with errors := acc.errors ++ [⟨symbol, message⟩] }
  | .ok (.success a) =>
    let acc := { acc with all_stocks := acc.all_stocks ++ [a] }
    let acc :=
      if a.current_trend = "bullish" then
        { acc with bullish_stocks := acc.bullish_stocks ++ [a] }
      else
        { acc with bearish_stocks := acc.bearish_stocks ++ [a] }
    match a.latest_signal with
    | none => acc
    | some s =>
      if s.type = "BUY" then { acc with buy_signals := acc.buy_signals ++ [a] }
      else { acc with sell_signals := acc.sell_signals ++ [a] }

/-- The sort key of the final ranking (lines 512-519): the anchored
signal strength, or 0 when the analysis has no signal. -/
def signalStrengthKey (a : StockAnalysis) : ℚ :=
  match a.latest_signal with
  | some s => s.strength
  | none => 0

/-- The descending comparison used by the ranking. -/
def strengthGE (a b : StockAnalysis) : Prop := signalStrengthKey b ≤ signalStrengthKey a

instance : DecidableRel strengthGE := fun _ _ => inferInstanceAs (Decidable (_ ≤ _))

instance : IsTotal StockAnalysis strengthGE := ⟨fun _ _ => le_total _ _⟩

instance : IsTrans StockAnalysis strengthGE := ⟨fun _ _ _ h1 h2 => le_trans h2 h1⟩

/-- The Python list.sort(key=..., reverse=True) is a stable descending
sort; it is modeled by a stable insertion sort with the same
comparison, which computes the same list. -/
def sortByStrengthDesc (l : List StockAnalysis) : List StockAnalysis :=
  List.insertionSort strengthGE l

/-- Embeds CandlestickAnalyzer.scan_all_stocks (lines 456-531): the
per-symbol loop with try/except, the final descending sort of the
buy and sell lists, and the summary counts. -/
def scan_all_stocks (analyze : String → Except String AnalyzeResult)
    (stocks : List String) : ScanReport :=
  let acc := stocks.foldl (fun acc s => scanStep acc s (analyze s)) {}
  let acc :=
    { acc with
      buy_signals := sortByStrengthDesc acc.buy_signals
      sell_signals := sortByStrengthDesc acc.sell_signals }
  { toScanAcc := acc
    total_stocks := stocks.length
    summary :=
      { total_scanned := acc.all_stocks.length
        buy_signals_count := acc.buy_signals.length
        sell_signals_count := acc.sell_signals.length
        bullish_count := acc.bullish_stocks.length
        bearish_count := acc.bearish_stocks.length
        error_count := acc.errors.length } }

/-- scan_all_stocks as called in the application, with every analysis
produced by analyze_stock and no exception raised. -/
def scanWithFetch (fetch : String → Option (List Bar)) (now : Date)
    (stocks : List String) : ScanReport :=
  scan_all_stocks (fun s => Except.ok (analyze_stock fetch now s)) stocks

/-- Number of days of a month, with the Gregorian leap rule; used only
to model the "last day of the month" end point of the mock window. -/
def daysInMonth (y : Int) (m : Nat) : Nat :=
  if m = 2 then
    if (y % 4 = 0 ∧ ¬y % 100 = 0) ∨ y % 400 = 0 then 29 else 28
  else if m = 4 ∨ m = 6 ∨ m = 9 ∨ m = 11 then 30 else 31

/-- One application of timedelta(days=1) subtraction. -/
def subOneDay (d : Date) : Date :=
  if d.day ≤ 1 then
    let p := subOneMonth d
    { p with day := daysInMonth p.year p.month }
  else { d with day := d.day - 1 }

/-- pandas date_range(start, end, freq=MS): the first-of-month dates
between start and stop inclusive, snapping a mid-month start forward
to the next month start. -/
def monthStarts (start stop : Date) : List Date :=
  let first : Date :=
    if start.day ≤ 1 then ⟨start.year, start.month, 1⟩
    else addOneMonth ⟨start.year, start.month, 1⟩
  let count := (12 * (stop.year - first.year) + ((stop.month : Int) - first.month) + 1).toNat
  (List.range count).map fun i => addMonths first i

/-- Abstract model of the external pseudo-random machinery used by the
mock generator: the CPython string hash and the numpy global generator
with its seed, normal and uniform primitives. These live outside the
repository (builtin and numpy code), so they are parameters; the state
type sigma stands for the global numpy RNG state. -/
structure RngModel (σ : Type) where
  hash : String → Nat
  seed : Nat → σ
  normal : ℚ → ℚ → σ → ℚ × σ
  uniform : ℚ → ℚ → σ → ℚ × σ

/-- The per-date loop of _generate_mock_data (lines 176-196): one bar
per month start, close-to-close drift, high/low bracketing with
multiplicative noise, pseudo-random volume, prices rounded to 2
decimals, the unrounded close carried to the next month. The int()
truncation of the volume is the floor (the draw is positive). -/
def mockRows {σ : Type} (M : RngModel σ) (symbol : String) :
    List Date → ℚ → σ → List Bar × σ
  | [], _, g => ([], g)
  | d :: rest, current_price, g =>
    let n1 := M.normal 0 (8 / 100) g
    let change_pct := n1.1
    let open_price := current_price
    let close_price := current_price * (1 + change_pct)
    let n2 := M.normal 0 (2 / 100) n1.2
    let high_price := max open_price close_price * (1 + |n2.1|)
    let n3 := M.normal 0 (2 / 100) n2.2
    let low_price := min open_price close_price * (1 - |n3.1|)
    let u := M.uniform 1000000 50000000 n3.2
    let bar : Bar :=
      { date := d
        «open» := round2 open_price
        high := round2 high_price
        low := round2 low_price
        close := round2 close_price
        volume := ⌊u.1⌋
        symbol := symbol }
    let rec_ := mockRows M symbol rest close_price u.2
    (bar :: rec_.1, rec_.2)

/-- Embeds CandlestickAnalyzer._generate_mock_data (lines 138-200).
globalState is the ambient numpy RNG state on entry; the source
overwrites it with np.random.seed(hash(symbol) % 2**32) before any
draw, which is why it does not influence the output. The default
window runs from 6 months before the earlier complete month to the
last day of the later one. -/
def generate_mock_data {σ : Type} (M : RngModel σ) (_globalState : σ) (symbol : String)
    (now : Date) (start_date end_date : Option Date) : List Bar × σ :=
  let months := get_last_two_complete_months now
  let start := start_date.getD (subMonths months.1 6)
  let stop := end_date.getD (subOneDay (addOneMonth months.2))
  let dates := monthStarts start stop
  let g := M.seed (M.hash symbol % 2 ^ 32)
  let u := M.uniform 100 3000 g
  mockRows M symbol dates u.1 u.2

/-- Well-formedness of the derived color booleans of a classified bar:
they agree with the close/open comparison of the same row. Every row
produced by process_data satisfies this. -/
def wfCBar (x : CBar) : Prop :=
  x.is_green = decide (x.close > x.«open») ∧ x.is_red = decide (x.close < x.«open»)

instance (x : CBar) : Decidable (wfCBar x) := inferInstanceAs (Decidable (_ ∧ _))

/-- Chronological order on dates. -/
def dateLE (a b : Date) : Prop :=
  a.year < b.year ∨ (a.year = b.year ∧
    (a.month < b.month ∨ (a.month = b.month ∧ a.day ≤ b.day)))

instance (a b : Date) : Decidable (dateLE a b) := by
  unfold dateLE; infer_instance

/-- The error entry that the scan loop records for a symbol, if any:
an unexpected exception is recorded with its message, a status-error
analysis with its message field, a success with nothing. -/
def errEntryOf (symbol : String) (r : Except String AnalyzeResult) : Option ErrorEntry :=
  match r with
  | .error e => some ⟨symbol, e⟩
  | .ok (.failure _ message) => some ⟨symbol, message⟩
  | .ok (.success _) => none

/-- The successful analysis a symbol contributes to all_stocks, if any. -/
def successOf (r : Except String AnalyzeResult) : Option StockAnalysis :=
  match r with
  | .ok (.success a) => some a
  | _ => none

/-- Whether an analysis is bucketed into the buy list: it has an
anchored signal and its type is BUY. -/
def hasBuySignal (a : StockAnalysis) : Bool :=
  match a.latest_signal with
  | some s => s.type == "BUY"
  | none => false

/-- Whether an analysis is bucketed into the sell list: it has an
anchored signal whose type is not BUY. -/
def hasSellSignal (a : StockAnalysis) : Bool :=
  match a.latest_signal with
  | some s => !(s.type == "BUY")
  | none => false

/-- Whether an analysis is bucketed as bullish. -/
def trendBullish (a : StockAnalysis) : Bool := a.current_trend == "bullish"

/-- A concrete red monthly bar used by witnesses. -/
def barRedDemo : Bar := ⟨⟨2026, 1, 1⟩, 3, 4, 1, 2, 5, "A"⟩

/-- A concrete green monthly bar used by witnesses. -/
def barGreenDemo : Bar := ⟨⟨2026, 2, 1⟩, 2, 5, 1, 4, 5, "A"⟩

/-- The classified first demo bar. -/
def pDemo : CBar := classifyOne none barRedDemo

/-- The classified second demo bar. -/
def cDemo : CBar := classifyOne (some barRedDemo) barGreenDemo

/-- A concrete bar dated well before the anchored months, for
exercising the fallback path. -/
def barOld1 : Bar := ⟨⟨2025, 6, 1⟩, 10, 12, 8, 9, 5, "B"⟩

/-- A second concrete bar dated well before the anchored months. -/
def barOld2 : Bar := ⟨⟨2025, 7, 1⟩, 9, 12, 8, 11, 5, "B"⟩

/-- A concrete instant used by witnesses: 2026-03-15, whose two
completed months are January and February 2026. -/
def nowDemo : Date := ⟨2026, 3, 15⟩

/-- A concrete bar source for witnesses: symbol B is unavailable, every
other symbol yields the two demo bars. -/
def fetchDemo (s : String) : Option (List Bar) :=
  if s = "B" then none else some [barRedDemo, barGreenDemo]

/-- The analysis that analyze_stock produces for symbol A from
fetchDemo at nowDemo (checked by kernel evaluation in the witnesses). -/
def analysisDemoA : StockAnalysis :=
  { symbol := "A"
    current_price := 4
    current_trend := "bullish"
    candle_color := "green"
    price_change_pct := 100
    latest_signal := some (mkBuySignal pDemo cDemo)
    total_signals := 1 }

/-! Shared lemmas about the embedded definitions -/

lemma process_data_length (data : List Bar) : (process_data data).length = data.length := by
  simp [process_data]

lemma process_data_map_toBar (data : List Bar) :
    (process_data data).map CBar.toBar = data := by
  simp only [process_data, List.map_map]
  exact List.map_snd_zip _ _ (by simp)

lemma mem_process_data_toBar {x : CBar} {data : List Bar} (h : x ∈ process_data data) :
    x.toBar ∈ data := by
  have h2 := List.mem_map_of_mem CBar.toBar h
  rwa [process_data_map_toBar] at h2

lemma mem_process_data_wf {x : CBar} {data : List Bar} (h : x ∈ process_data data) :
    wfCBar x := by
  simp only [process_data, List.mem_map] at h
  obtain ⟨pb, hmem, rfl⟩ := h
  exact ⟨rfl, rfl⟩

lemma round2_nonneg {q : ℚ} (h : 0 ≤ q) : 0 ≤ round2 q := by
  have h100 : (0:ℚ) ≤ q * 100 := by positivity
  have hf : (0:ℤ) ≤ ⌊q * 100⌋ := Int.floor_nonneg.mpr h100
  unfold round2
  apply div_nonneg _ (by norm_num : (0:ℚ) ≤ 100)
  suffices hz : (0:ℤ) ≤ roundHalfEven (q * 100) by exact_mod_cast hz
  unfold roundHalfEven
  dsimp only
  split_ifs <;> omega

/-! C4: calendar utility -/

/-- C4: for every valid calendar instant now, get_last_two_complete_months
deterministically returns the pair (first of the month two months before
now, first of the month one month before now); in particular for any day
in March 2026 it returns (2026-01-01, 2026-02-01). -/
theorem calendar_last_two_complete_months :
    (∀ now : Date, 1 ≤ now.month → now.month ≤ 12 →
      get_last_two_complete_months now =
        (dateOfMonthIndex (monthIndex now - 2), dateOfMonthIndex (monthIndex now - 1))) ∧
    (∀ d : Nat, get_last_two_complete_months ⟨2026, 3, d⟩ = (⟨2026, 1, 1⟩, ⟨2026, 2, 1⟩)) := by
  constructor
  · rintro ⟨y, m, d⟩ h1 h2
    simp only [get_last_two_complete_months, subOneMonth, monthIndex, dateOfMonthIndex]
    interval_cases m <;>
      simp_all [Int.fdiv_eq_ediv, Int.fmod_eq_emod, Prod.ext_iff, Date.mk.injEq] <;>
      omega
  · intro d; rfl

/-- C4 witness: instantiation at 2026-03-15. -/
theorem calendar_last_two_complete_months_witness :
    get_last_two_complete_months ⟨2026, 3, 15⟩ =
      (dateOfMonthIndex (monthIndex ⟨2026, 3, 15⟩ - 2),
       dateOfMonthIndex (monthIndex ⟨2026, 3, 15⟩ - 1)) :=
  calendar_last_two_complete_months.1 ⟨2026, 3, 15⟩ (by decide) (by decide)

/-! C6: classifier purity, order preservation, singleton case -/

/-- C6: process_data is a pure deterministic function: equal inputs give
equal (identical) outputs; the classified rows carry the input bars
unchanged and in order; a single-bar input yields exactly one classified
bar whose previous-linkage fields are all absent. -/
theorem process_data_pure_and_order_preserving :
    (∀ data : List Bar, (process_data data).map CBar.toBar = data) ∧
    (∀ d1 d2 : List Bar, d1 = d2 → process_data d1 = process_data d2) ∧
    (∀ b : Bar,
      process_data [b] = [classifyOne none b] ∧
      (classifyOne none b).prev_open = none ∧
      (classifyOne none b).prev_close = none ∧
      (classifyOne none b).prev_color = none) := by
  refine ⟨process_data_map_toBar, ?_, ?_⟩
  · intro d1 d2 h; rw [h]
  · intro b; exact ⟨rfl, rfl, rfl, rfl⟩

/-- C6 witness: the determinism conjunct applied to a concrete
single-bar sequence. -/
theorem process_data_pure_witness :
    process_data [⟨⟨2026, 1, 1⟩, 100, 120, 80, 90, 5, "A"⟩] =
      process_data [⟨⟨2026, 1, 1⟩, 100, 120, 80, 90, 5, "A"⟩] :=
  process_data_pure_and_order_preserving.2.1 _ _ rfl

/-! C1: per-pair signal extraction -/

/-- C1 counterexample: the claim states the emitted strength equals
(current.close - previous.open) / previous.open * 100 exactly, but the
code emits that value rounded to 2 decimal places. Previous bar
open 3 close 2 (red), current bar open 2 close 4 (green) with
4 > 3 triggers a BUY whose emitted strength is 33.33, not 100/3. -/
theorem generate_signals_exact_strength_counterexample :
    (generate_signals
      [⟨⟨2026, 1, 1⟩, 3, 4, 1, 2, 5, "A"⟩,
       ⟨⟨2026, 2, 1⟩, 2, 5, 1, 4, 5, "A"⟩]).map Signal.strength = [3333 / 100] ∧
    ((4 - 3 : ℚ) / 3 * 100) ∉
      (generate_signals
        [⟨⟨2026, 1, 1⟩, 3, 4, 1, 2, 5, "A"⟩,
         ⟨⟨2026, 2, 1⟩, 2, 5, 1, 4, 5, "A"⟩]).map Signal.strength := by
  constructor
  · decide
  · decide

/-- C1 amended: generate_signals evaluates every adjacent pair of the
classified sequence independently and, per pair, emits a BUY signal iff
the current bar is green, the previous bar is red and current close
exceeds previous open, with strength equal to round2 of
(current.close - previous.open) / previous.open * 100; a SELL signal
iff current is red, previous is green and current close is below
previous open, with strength round2 of
(previous.open - current.close) / previous.open * 100; otherwise no
signal, and at most one signal per pair (the per-pair result is a
single Option). -/
theorem generate_signals_per_pair_amended :
    (∀ data : List Bar,
      generate_signals data =
        ((process_data data).zip (process_data data).tail).filterMap
          (fun pc => signalForPair pc.1 pc.2)) ∧
    (∀ (data : List Bar) (x : CBar), x ∈ process_data data → wfCBar x) ∧
    (∀ p c : CBar, wfCBar p → wfCBar c →
      (signalForPair p c = some (mkBuySignal p c) ↔
        (c.close > c.«open» ∧ p.close < p.«open» ∧ c.close > p.«open»)) ∧
      (signalForPair p c = some (mkSellSignal p c) ↔
        (c.close < c.«open» ∧ p.close > p.«open» ∧ c.close < p.«open»)) ∧
      (signalForPair p c = none ↔
        (¬(c.close > c.«open» ∧ p.close < p.«open» ∧ c.close > p.«open») ∧
         ¬(c.close < c.«open» ∧ p.close > p.«open» ∧ c.close < p.«open»))) ∧
      (mkBuySignal p c).type = "BUY" ∧
      (mkBuySignal p c).strength = round2 ((c.close - p.«open») / p.«open» * 100) ∧
      (mkSellSignal p c).type = "SELL" ∧
      (mkSellSignal p c).strength = round2 ((p.«open» - c.close) / p.«open» * 100)) := by
  refine ⟨fun data => rfl, fun data x h => mem_process_data_wf h, ?_⟩
  intro p c wp wc
  obtain ⟨hpg, hpr⟩ := wp
  obtain ⟨hcg, hcr⟩ := wc
  have hBS : mkBuySignal p c ≠ mkSellSignal p c := by
    simp [mkBuySignal, mkSellSignal]
  refine ⟨?_, ?_, ?_, rfl, rfl, rfl, rfl⟩
  · simp only [signalForPair, hcg, hcr, hpg, hpr, decide_eq_true_eq]
    split_ifs with h1 h2
    · simp [h1]
    · refine iff_of_false ?_ h1
      intro he
      exact hBS (Option.some.inj he).symm
    · exact iff_of_false (by simp) h1
  · simp only [signalForPair, hcg, hcr, hpg, hpr, decide_eq_true_eq]
    split_ifs with h1 h2
    · refine iff_of_false ?_ ?_
      · intro he
        exact hBS (Option.some.inj he)
      · rintro ⟨hlt, -, -⟩
        exact lt_asymm h1.1 hlt
    · simp [h2]
    · exact iff_of_false (by simp) h2
  · simp only [signalForPair, hcg, hcr, hpg, hpr, decide_eq_true_eq]
    split_ifs with h1 h2
    · refine iff_of_false (by simp) ?_
      rintro ⟨hnb, -⟩
      exact hnb h1
    · refine iff_of_false (by simp) ?_
      rintro ⟨-, hns⟩
      exact hns h2
    · exact iff_of_true rfl ⟨h1, h2⟩

/-- C1 witness: the BUY case of the amended per-pair rule at a concrete
red-then-green pair. -/
theorem generate_signals_per_pair_witness :
    signalForPair pDemo cDemo = some (mkBuySignal pDemo cDemo) :=
  ((generate_signals_per_pair_amended.2.2 pDemo cDemo (by decide) (by decide)).1).mpr
    (by decide)

/-! C3: signal strength sign -/

/-- C3 counterexample: a favorable move so small that the 2-decimal
rounding of the strength yields exactly 0: previous bar open 1000
close 999 (red), current bar open 999 close 1000.001 (green, above the
previous open). The emitted BUY signal has strength 0, which is not
strictly positive. -/
theorem signal_strength_positive_counterexample :
    (generate_signals
      [⟨⟨2026, 1, 1⟩, 1000, 1000, 999, 999, 5, "A"⟩,
       ⟨⟨2026, 2, 1⟩, 999, 1001, 999, 1000001 / 1000, 5, "A"⟩]).map Signal.strength = [0] := by
  decide

lemma signalForPair_strength_nonneg {p c : CBar} {s : Signal}
    (hp : 0 < p.«open») (hs : signalForPair p c = some s) :
    0 ≤ s.strength ∧
    (s.strength = round2 ((c.close - p.«open») / p.«open» * 100) ∨
     s.strength = round2 ((p.«open» - c.close) / p.«open» * 100)) := by
  unfold signalForPair at hs
  split_ifs at hs with h1 h2
  · obtain rfl : mkBuySignal p c = s := Option.some.inj hs
    have hq : (0:ℚ) ≤ (c.close - p.«open») / p.«open» * 100 := by
      have hnum : (0:ℚ) ≤ c.close - p.«open» := by
        have := h1.2.2
        linarith
      have := div_nonneg hnum (le_of_lt hp)
      linarith
    exact ⟨round2_nonneg hq, Or.inl rfl⟩
  · obtain rfl : mkSellSignal p c = s := Option.some.inj hs
    have hq : (0:ℚ) ≤ (p.«open» - c.close) / p.«open» * 100 := by
      have hnum : (0:ℚ) ≤ p.«open» - c.close := by
        have := h2.2.2
        linarith
      have := div_nonneg hnum (le_of_lt hp)
      linarith
    exact ⟨round2_nonneg hq, Or.inr rfl⟩

lemma selectPair_mem {now : Date} {data : List Bar} {p c : CBar}
    (h : selectPairForLastTwoMonths now data = some (p, c)) :
    p ∈ process_data data ∧ c ∈ process_data data := by
  simp only [selectPairForLastTwoMonths] at h
  split at h
  · exact absurd h (by simp)
  · split at h
    · rename_i p0 l1 c0 l2 heq1 heq2
      have h2 := Option.some.inj h
      have hp0 : p0 ∈ process_data data := by
        have hm : p0 ∈ monthFilter (get_last_two_complete_months now).1 (process_data data) := by
          rw [heq1]; exact List.mem_cons_self _ _
        exact (List.mem_filter.mp hm).1
      have hc0 : c0 ∈ process_data data := by
        have hm : c0 ∈ monthFilter (get_last_two_complete_months now).2 (process_data data) := by
          rw [heq2]; exact List.mem_cons_self _ _
        exact (List.mem_filter.mp hm).1
      rw [Prod.mk.injEq] at h2
      exact ⟨h2.1 ▸ hp0, h2.2 ▸ hc0⟩
    · split at h
      · rename_i c0 p0 rest heq
        have h2 := Option.some.inj h
        have hp0 : p0 ∈ process_data data := by
          have hm : p0 ∈ (process_data data).reverse := by
            rw [heq]; exact List.mem_cons_of_mem _ (List.mem_cons_self _ _)
          exact List.mem_reverse.mp hm
        have hc0 : c0 ∈ process_data data := by
          have hm : c0 ∈ (process_data data).reverse := by
            rw [heq]; exact List.mem_cons_self _ _
          exact List.mem_reverse.mp hm
        rw [Prod.mk.injEq] at h2
        exact ⟨h2.1 ▸ hp0, h2.2 ▸ hc0⟩
      · exact absurd h (by simp)

/-- C3 amended: for every signal emitted by either algorithm over bars
with positive opens, the strength is computed relative to the previous
bar open value (it is the 2-decimal rounding of the favorable move
percentage) and is nonnegative; it can be exactly 0 when the favorable
move rounds to zero, so it is not strictly positive in general. -/
theorem signal_strength_nonneg_amended :
    (∀ (p c : CBar) (s : Signal), 0 < p.«open» → signalForPair p c = some s →
      0 ≤ s.strength ∧
      (s.strength = round2 ((c.close - p.«open») / p.«open» * 100) ∨
       s.strength = round2 ((p.«open» - c.close) / p.«open» * 100))) ∧
    (∀ (data : List Bar) (s : Signal), s ∈ generate_signals data →
      (∀ b ∈ data, 0 < b.«open») → 0 ≤ s.strength) ∧
    (∀ (now : Date) (data : List Bar) (s : Signal),
      generate_signal_for_last_two_months now data = some s →
      (∀ b ∈ data, 0 < b.«open») → 0 ≤ s.strength) := by
  refine ⟨fun p c s hp hs => signalForPair_strength_nonneg hp hs, ?_, ?_⟩
  · intro data s hmem hpos
    simp only [generate_signals, List.mem_filterMap] at hmem
    obtain ⟨pc, hpc, hsig⟩ := hmem
    obtain ⟨p, c⟩ := pc
    have hpmem : p ∈ process_data data := (List.of_mem_zip hpc).1
    have hp : 0 < p.«open» := hpos p.toBar (mem_process_data_toBar hpmem)
    exact (signalForPair_strength_nonneg hp hsig).1
  · intro now data s hs hpos
    unfold generate_signal_for_last_two_months at hs
    cases hsel : selectPairForLastTwoMonths now data with
    | none => rw [hsel] at hs; exact absurd hs (by simp)
    | some pc =>
      obtain ⟨p, c⟩ := pc
      rw [hsel] at hs
      have hpmem : p ∈ process_data data := (selectPair_mem hsel).1
      have hp : 0 < p.«open» := hpos p.toBar (mem_process_data_toBar hpmem)
      exact (signalForPair_strength_nonneg hp hs).1

/-- C3 witness: the core conjunct at a concrete emitted BUY signal with
positive previous open. -/
theorem signal_strength_nonneg_witness :
    0 ≤ (mkBuySignal pDemo cDemo).strength :=
  (signal_strength_nonneg_amended.1 pDemo cDemo (mkBuySignal pDemo cDemo)
    (by decide) (by decide)).1

/-! C2: anchored two-month pair selection -/

lemma reverse_cons_cons {α : Type} {l : List α} {a b : α} {t : List α}
    (h : l.reverse = a :: b :: t) (h2 : 2 ≤ l.length) :
    a = l.get ⟨l.length - 1, by omega⟩ ∧ b = l.get ⟨l.length - 2, by omega⟩ := by
  have hl0 : (0:ℕ) < l.reverse.length := by rw [h]; simp
  have hl1 : (1:ℕ) < l.reverse.length := by rw [h]; simp
  have ha : l.reverse.get ⟨0, hl0⟩ = a := by simp [h]
  have hb : l.reverse.get ⟨1, hl1⟩ = b := by simp [h]
  rw [List.get_eq_getElem] at ha hb
  rw [List.getElem_reverse] at ha hb
  exact ⟨ha.symm, hb.symm⟩

/-- C2: the anchored signal computation returns absent on fewer than 2
bars; it is fully determined by the selected pair; when both calendar
candidate sets are nonempty the pair is (first of the previous-month
set, first of the current-month set); when either set is empty the pair
is the last two rows of the classified sequence. -/
theorem anchored_pair_selection :
    (∀ (now : Date) (data : List Bar), data.length < 2 →
      generate_signal_for_last_two_months now data = none) ∧
    (∀ (now : Date) (data : List Bar),
      generate_signal_for_last_two_months now data =
        (selectPairForLastTwoMonths now data).bind fun pc => signalForPair pc.1 pc.2) ∧
    (∀ (now : Date) (data : List Bar), 2 ≤ data.length →
      ∀ (p c : CBar) (l1 l2 : List CBar),
        monthFilter (get_last_two_complete_months now).1 (process_data data) = p :: l1 →
        monthFilter (get_last_two_complete_months now).2 (process_data data) = c :: l2 →
        selectPairForLastTwoMonths now data = some (p, c)) ∧
    (∀ (now : Date) (data : List Bar) (h2 : 2 ≤ (process_data data).length),
      (monthFilter (get_last_two_complete_months now).1 (process_data data) = [] ∨
       monthFilter (get_last_two_complete_months now).2 (process_data data) = []) →
      selectPairForLastTwoMonths now data =
        some ((process_data data).get ⟨(process_data data).length - 2, by omega⟩,
              (process_data data).get ⟨(process_data data).length - 1, by omega⟩)) := by
  refine ⟨?_, ?_, ?_, ?_⟩
  · intro now data h
    have hsel : selectPairForLastTwoMonths now data = none := by
      simp only [selectPairForLastTwoMonths]
      rw [if_pos h]
    simp [generate_signal_for_last_two_months, hsel]
  · intro now data
    cases hsel : selectPairForLastTwoMonths now data with
    | none => simp [generate_signal_for_last_two_months, hsel]
    | some pc =>
      obtain ⟨p, c⟩ := pc
      simp [generate_signal_for_last_two_months, hsel]
  · intro now data hlen p c l1 l2 hp hc
    simp only [selectPairForLastTwoMonths]
    rw [if_neg (by omega), hp, hc]
  · intro now data h2 hemp
    have hlen : ¬data.length < 2 := by
      have hpl := process_data_length data
      omega
    obtain ⟨a, b, t, hrev⟩ : ∃ a b t, (process_data data).reverse = a :: b :: t := by
      cases hR : (process_data data).reverse with
      | nil =>
        exfalso
        have hc := congrArg List.length hR
        simp only [List.length_reverse, List.length_nil] at hc
        omega
      | cons a r =>
        cases r with
        | nil =>
          exfalso
          have hc := congrArg List.length hR
          simp only [List.length_reverse, List.length_cons, List.length_nil] at hc
          omega
        | cons b t => exact ⟨a, b, t, rfl⟩
    have hab := reverse_cons_cons hrev h2
    simp only [selectPairForLastTwoMonths]
    rw [if_neg hlen]
    rcases hemp with he | he
    · cases hF2 : monthFilter (get_last_two_complete_months now).2 (process_data data) <;>
        rw [he, hrev] <;>
        rw [hab.1, hab.2]
    · cases hF1 : monthFilter (get_last_two_complete_months now).1 (process_data data) <;>
        rw [he, hrev] <;>
        rw [hab.1, hab.2]

/-- C2 witness: the three behaviors at concrete inputs: the empty
sequence, a sequence with bars in both anchored months, and a sequence
whose bars predate both anchored months (fallback to the last two). -/
theorem anchored_pair_selection_witness :
    generate_signal_for_last_two_months ⟨2026, 3, 15⟩ [] = none ∧
    selectPairForLastTwoMonths ⟨2026, 3, 15⟩ [barRedDemo, barGreenDemo] =
      some (pDemo, cDemo) ∧
    selectPairForLastTwoMonths ⟨2026, 3, 15⟩ [barOld1, barOld2] =
      some (classifyOne none barOld1, classifyOne (some barOld1) barOld2) := by
  refine ⟨?_, ?_, ?_⟩
  · exact anchored_pair_selection.1 ⟨2026, 3, 15⟩ [] (by decide)
  · exact anchored_pair_selection.2.2.1 ⟨2026, 3, 15⟩ [barRedDemo, barGreenDemo]
      (by decide) pDemo cDemo [] [] (by decide) (by decide)
  · exact (anchored_pair_selection.2.2.2 ⟨2026, 3, 15⟩ [barOld1, barOld2]
      (by decide) (Or.inl (by decide))).trans (by decide)

/-! Scanner: fold characterization -/

lemma toList_filterMap_cons {α β : Type} (f : α → Option β) (a : α) (l : List α) :
    (f a).toList ++ l.filterMap f = (a :: l).filterMap f := by
  rw [List.filterMap_cons]
  cases f a <;> simp

lemma scanStep_fields (acc : ScanAcc) (s : String) (r : Except String AnalyzeResult) :
    (scanStep acc s r).errors = acc.errors ++ (errEntryOf s r).toList ∧
    (scanStep acc s r).all_stocks = acc.all_stocks ++ (successOf r).toList ∧
    (scanStep acc s r).bullish_stocks =
      acc.bullish_stocks ++ (successOf r).toList.filter trendBullish ∧
    (scanStep acc s r).bearish_stocks =
      acc.bearish_stocks ++ (successOf r).toList.filter (fun a => !trendBullish a) ∧
    (scanStep acc s r).buy_signals =
      acc.buy_signals ++ (successOf r).toList.filter hasBuySignal ∧
    (scanStep acc s r).sell_signals =
      acc.sell_signals ++ (successOf r).toList.filter hasSellSignal := by
  cases r with
  | error e => simp [scanStep, errEntryOf, successOf]
  | ok ar =>
    cases ar with
    | failure sym m => simp [scanStep, errEntryOf, successOf]
    | success a =>
      by_cases htr : a.current_trend = "bullish"
      · cases hsig : a.latest_signal with
        | none =>
          simp [scanStep, errEntryOf, successOf, trendBullish, hasBuySignal, hasSellSignal,
            htr, hsig]
        | some sg =>
          by_cases hty : sg.type = "BUY"
          · simp [scanStep, errEntryOf, successOf, trendBullish, hasBuySignal, hasSellSignal,
              htr, hsig, hty]
          · simp [scanStep, errEntryOf, successOf, trendBullish, hasBuySignal, hasSellSignal,
              htr, hsig, hty]
      · cases hsig : a.latest_signal with
        | none =>
          simp [scanStep, errEntryOf, successOf, trendBullish, hasBuySignal, hasSellSignal,
            htr, hsig]
        | some sg =>
          by_cases hty : sg.type = "BUY"
          · simp [scanStep, errEntryOf, successOf, trendBullish, hasBuySignal, hasSellSignal,
              htr, hsig, hty]
          · simp [scanStep, errEntryOf, successOf, trendBullish, hasBuySignal, hasSellSignal,
              htr, hsig, hty]

lemma scanFold_spec (analyze : String → Except String AnalyzeResult) (stocks : List String)
    (acc : ScanAcc) :
    (stocks.foldl (fun a s => scanStep a s (analyze s)) acc).errors =
      acc.errors ++ stocks.filterMap (fun s => errEntryOf s (analyze s)) ∧
    (stocks.foldl (fun a s => scanStep a s (analyze s)) acc).all_stocks =
      acc.all_stocks ++ stocks.filterMap (fun s => successOf (analyze s)) ∧
    (stocks.foldl (fun a s => scanStep a s (analyze s)) acc).bullish_stocks =
      acc.bullish_stocks ++
        (stocks.filterMap (fun s => successOf (analyze s))).filter trendBullish ∧
    (stocks.foldl (fun a s => scanStep a s (analyze s)) acc).bearish_stocks =
      acc.bearish_stocks ++
        (stocks.filterMap (fun s => successOf (analyze s))).filter (fun a => !trendBullish a) ∧
    (stocks.foldl (fun a s => scanStep a s (analyze s)) acc).buy_signals =
      acc.buy_signals ++
        (stocks.filterMap (fun s => successOf (analyze s))).filter hasBuySignal ∧
    (stocks.foldl (fun a s => scanStep a s (analyze s)) acc).sell_signals =
      acc.sell_signals ++
        (stocks.filterMap (fun s => successOf (analyze s))).filter hasSellSignal := by
  induction stocks generalizing acc with
  | nil => simp
  | cons s rest ih =>
    obtain ⟨he, ha, hbu, hbe, hb, hsl⟩ := scanStep_fields acc s (analyze s)
    obtain ⟨ie, ia, ibu, ibe, ib, isl⟩ := ih (scanStep acc s (analyze s))
    simp only [List.foldl_cons]
    refine ⟨?_, ?_, ?_, ?_, ?_, ?_⟩
    · rw [ie, he, List.append_assoc,
        toList_filterMap_cons (fun s => errEntryOf s (analyze s)) s rest]
    · rw [ia, ha, List.append_assoc,
        toList_filterMap_cons (fun s => successOf (analyze s)) s rest]
    · rw [ibu, hbu, List.append_assoc, ← List.filter_append,
        toList_filterMap_cons (fun s => successOf (analyze s)) s rest]
    · rw [ibe, hbe, List.append_assoc, ← List.filter_append,
        toList_filterMap_cons (fun s => successOf (analyze s)) s rest]
    · rw [ib, hb, List.append_assoc, ← List.filter_append,
        toList_filterMap_cons (fun s => successOf (analyze s)) s rest]
    · rw [isl, hsl, List.append_assoc, ← List.filter_append,
        toList_filterMap_cons (fun s => successOf (analyze s)) s rest]

lemma scan_errors_eq (analyze : String → Except String AnalyzeResult) (stocks : List String) :
    (scan_all_stocks analyze stocks).errors =
      stocks.filterMap (fun s => errEntryOf s (analyze s)) := by
  have h := (scanFold_spec analyze stocks {}).1
  simpa [scan_all_stocks] using h

lemma scan_all_eq (analyze : String → Except String AnalyzeResult) (stocks : List String) :
    (scan_all_stocks analyze stocks).all_stocks =
      stocks.filterMap (fun s => successOf (analyze s)) := by
  have h := (scanFold_spec analyze stocks {}).2.1
  simpa [scan_all_stocks] using h

lemma scan_bullish_eq (analyze : String → Except String AnalyzeResult) (stocks : List String) :
    (scan_all_stocks analyze stocks).bullish_stocks =
      (stocks.filterMap (fun s => successOf (analyze s))).filter trendBullish := by
  have h := (scanFold_spec analyze stocks {}).2.2.1
  simpa [scan_all_stocks] using h

lemma scan_bearish_eq (analyze : String → Except String AnalyzeResult) (stocks : List String) :
    (scan_all_stocks analyze stocks).bearish_stocks =
      (stocks.filterMap (fun s => successOf (analyze s))).filter (fun a => !trendBullish a) := by
  have h := (scanFold_spec analyze stocks {}).2.2.2.1
  simpa [scan_all_stocks] using h

lemma scan_buy_eq (analyze : String → Except String AnalyzeResult) (stocks : List String) :
    (scan_all_stocks analyze stocks).buy_signals =
      sortByStrengthDesc
        ((stocks.filterMap (fun s => successOf (analyze s))).filter hasBuySignal) := by
  have h := (scanFold_spec analyze stocks {}).2.2.2.2.1
  simp only [scan_all_stocks]
  rw [h]
  simp

lemma scan_sell_eq (analyze : String → Except String AnalyzeResult) (stocks : List String) :
    (scan_all_stocks analyze stocks).sell_signals =
      sortByStrengthDesc
        ((stocks.filterMap (fun s => successOf (analyze s))).filter hasSellSignal) := by
  have h := (scanFold_spec analyze stocks {}).2.2.2.2.2
  simp only [scan_all_stocks]
  rw [h]
  simp

lemma filterMap_err_succ_length (analyze : String → Except String AnalyzeResult)
    (stocks : List String) :
    (stocks.filterMap (fun s => errEntryOf s (analyze s))).length +
      (stocks.filterMap (fun s => successOf (analyze s))).length = stocks.length := by
  induction stocks with
  | nil => simp
  | cons s rest ih =>
    cases h : analyze s with
    | error e =>
      have h1 : errEntryOf s (analyze s) = some ⟨s, e⟩ := by rw [h]; rfl
      have h2 : successOf (analyze s) = none := by rw [h]; rfl
      simp [List.filterMap_cons, h1, h2]
      omega
    | ok ar =>
      cases ar with
      | failure sym m =>
        have h1 : errEntryOf s (analyze s) = some ⟨s, m⟩ := by rw [h]; rfl
        have h2 : successOf (analyze s) = none := by rw [h]; rfl
        simp [List.filterMap_cons, h1, h2]
        omega
      | success a =>
        have h1 : errEntryOf s (analyze s) = none := by rw [h]; rfl
        have h2 : successOf (analyze s) = some a := by rw [h]; rfl
        simp [List.filterMap_cons, h1, h2]
        omega

/-! C5: scan resilience -/

/-- C5: the scan records exactly one error entry (symbol and message)
for every symbol whose analysis is unavailable or faults, and one
successful analysis for every other symbol, in order, never aborting;
in particular a 3-symbol universe with one unavailable symbol yields 1
error and 2 analyses, and a fully failing universe yields zero
successes and one error per symbol. -/
theorem scan_never_aborts (analyze : String → Except String AnalyzeResult)
    (stocks : List String) :
    (scan_all_stocks analyze stocks).errors =
      stocks.filterMap (fun s => errEntryOf s (analyze s)) ∧
    (scan_all_stocks analyze stocks).all_stocks =
      stocks.filterMap (fun s => successOf (analyze s)) ∧
    (((scanWithFetch fetchDemo nowDemo ["A", "B", "C"]).errors).length = 1 ∧
      ((scanWithFetch fetchDemo nowDemo ["A", "B", "C"]).all_stocks).length = 2) ∧
    (∀ (analyze2 : String → Except String AnalyzeResult) (stocks2 : List String),
      (∀ s, successOf (analyze2 s) = none) →
      (scan_all_stocks analyze2 stocks2).all_stocks = [] ∧
      ((scan_all_stocks analyze2 stocks2).errors).length = stocks2.length) := by
  refine ⟨scan_errors_eq analyze stocks, scan_all_eq analyze stocks, ⟨by decide, by decide⟩, ?_⟩
  intro analyze2 stocks2 hfail
  have hall : (scan_all_stocks analyze2 stocks2).all_stocks = [] := by
    rw [scan_all_eq]
    exact List.filterMap_eq_nil_iff.mpr fun s _ => hfail s
  refine ⟨hall, ?_⟩
  have hlen := filterMap_err_succ_length analyze2 stocks2
  have hsucc : (stocks2.filterMap (fun s => successOf (analyze2 s))).length = 0 := by
    rw [List.filterMap_eq_nil_iff.mpr fun s _ => hfail s]
    rfl
  rw [scan_errors_eq]
  omega

/-- C5 witness: the fully failing universe conjunct at a concrete
2-symbol universe whose analyses always raise. -/
theorem scan_never_aborts_witness :
    (scan_all_stocks (fun _ => Except.error "boom") ["X", "Y"]).all_stocks = [] ∧
    ((scan_all_stocks (fun _ => Except.error "boom") ["X", "Y"]).errors).length = 2 :=
  (scan_never_aborts (fun _ => Except.error "boom") ["X", "Y"]).2.2.2
    (fun _ => Except.error "boom") ["X", "Y"] (fun _ => rfl)

/-! C9: per-symbol partition of the report -/

/-- C9: every requested symbol contributes exactly one error entry or
exactly one successful analysis, so the error and success lists
partition the universe by count, and the summary counts equal the list
lengths. -/
theorem scan_counts_partition (analyze : String → Except String AnalyzeResult)
    (stocks : List String) :
    ((scan_all_stocks analyze stocks).errors).length +
      ((scan_all_stocks analyze stocks).all_stocks).length = stocks.length ∧
    (scan_all_stocks analyze stocks).summary.total_scanned =
      ((scan_all_stocks analyze stocks).all_stocks).length ∧
    (scan_all_stocks analyze stocks).summary.error_count =
      ((scan_all_stocks analyze stocks).errors).length := by
  refine ⟨?_, rfl, rfl⟩
  rw [scan_errors_eq, scan_all_eq]
  exact filterMap_err_succ_length analyze stocks

/-! C7: ranking order -/

/-- C7: the buy and sell lists of every report are sorted by the
anchored signal strength in descending order, where an analysis without
a signal counts as strength 0; moreover every element of those lists
has an anchored signal, so no signal-less symbol can outrank a
positive-strength one there. -/
theorem scan_ranking_sorted (analyze : String → Except String AnalyzeResult)
    (stocks : List String) :
    List.Pairwise strengthGE (scan_all_stocks analyze stocks).buy_signals ∧
    List.Pairwise strengthGE (scan_all_stocks analyze stocks).sell_signals ∧
    (∀ a ∈ (scan_all_stocks analyze stocks).buy_signals, a.latest_signal.isSome = true) ∧
    (∀ a ∈ (scan_all_stocks analyze stocks).sell_signals, a.latest_signal.isSome = true) := by
  refine ⟨?_, ?_, ?_, ?_⟩
  · rw [scan_buy_eq]
    exact List.sorted_insertionSort strengthGE _
  · rw [scan_sell_eq]
    exact List.sorted_insertionSort strengthGE _
  · intro a ha
    rw [scan_buy_eq] at ha
    have hmem : a ∈ (stocks.filterMap (fun s => successOf (analyze s))).filter hasBuySignal :=
      (List.perm_insertionSort strengthGE _).mem_iff.mp ha
    have hfb := List.of_mem_filter hmem
    unfold hasBuySignal at hfb
    cases hsig : a.latest_signal with
    | none => rw [hsig] at hfb; exact absurd hfb (by simp)
    | some sg => simp [hsig]
  · intro a ha
    rw [scan_sell_eq] at ha
    have hmem : a ∈ (stocks.filterMap (fun s => successOf (analyze s))).filter hasSellSignal :=
      (List.perm_insertionSort strengthGE _).mem_iff.mp ha
    have hfb := List.of_mem_filter hmem
    unfold hasSellSignal at hfb
    cases hsig : a.latest_signal with
    | none => rw [hsig] at hfb; exact absurd hfb (by simp)
    | some sg => simp [hsig]

/-- C7 witness: the buy-list membership conjunct at a concrete
one-symbol scan whose analysis carries a BUY signal. -/
theorem scan_ranking_sorted_witness :
    analysisDemoA.latest_signal.isSome = true :=
  (scan_ranking_sorted (fun s => Except.ok (analyze_stock fetchDemo nowDemo s)) ["A"]).2.2.1
    analysisDemoA (by decide)

/-! C10: bucketing invariants -/

/-- C10: every element of the buy list carries an anchored signal of
type BUY; every element of the sell list carries an anchored signal of
a type other than BUY; the bullish and bearish lists are exactly the
split of all_stocks by current_trend equal to bullish or not; and a
successful analysis is bullish exactly when the last classified bar of
its fetched data is green (a neutral last bar counts as bearish). -/
theorem scan_bucket_invariants (analyze : String → Except String AnalyzeResult)
    (stocks : List String) :
    (∀ a ∈ (scan_all_stocks analyze stocks).buy_signals,
      a.latest_signal.map Signal.type = some "BUY") ∧
    (∀ a ∈ (scan_all_stocks analyze stocks).sell_signals,
      a.latest_signal.isSome = true ∧ a.latest_signal.map Signal.type ≠ some "BUY") ∧
    (scan_all_stocks analyze stocks).bullish_stocks =
      ((scan_all_stocks analyze stocks).all_stocks).filter trendBullish ∧
    (scan_all_stocks analyze stocks).bearish_stocks =
      ((scan_all_stocks analyze stocks).all_stocks).filter (fun a => !trendBullish a) ∧
    (∀ (fetch : String → Option (List Bar)) (now : Date) (sym : String) (data : List Bar)
      (a : StockAnalysis), fetch sym = some data →
      analyze_stock fetch now sym = AnalyzeResult.success a →
      (a.current_trend = "bullish" ↔
        (process_data data).getLast?.map CBar.is_green = some true)) := by
  refine ⟨?_, ?_, ?_, ?_, ?_⟩
  · intro a ha
    rw [scan_buy_eq] at ha
    have hmem : a ∈ (stocks.filterMap (fun s => successOf (analyze s))).filter hasBuySignal :=
      (List.perm_insertionSort strengthGE _).mem_iff.mp ha
    have hfb := List.of_mem_filter hmem
    unfold hasBuySignal at hfb
    cases hsig : a.latest_signal with
    | none => rw [hsig] at hfb; exact absurd hfb (by simp)
    | some sg =>
      rw [hsig] at hfb
      simp only [beq_iff_eq] at hfb
      simp [hsig, hfb]
  · intro a ha
    rw [scan_sell_eq] at ha
    have hmem : a ∈ (stocks.filterMap (fun s => successOf (analyze s))).filter hasSellSignal :=
      (List.perm_insertionSort strengthGE _).mem_iff.mp ha
    have hfb := List.of_mem_filter hmem
    unfold hasSellSignal at hfb
    cases hsig : a.latest_signal with
    | none => rw [hsig] at hfb; exact absurd hfb (by simp)
    | some sg =>
      rw [hsig] at hfb
      simp only [Bool.not_eq_true', beq_eq_false_iff_ne, ne_eq] at hfb
      simp [hsig, hfb]
  · rw [scan_bullish_eq, scan_all_eq]
  · rw [scan_bearish_eq, scan_all_eq]
  · intro fetch now sym data a hf hs
    simp only [analyze_stock, hf] at hs
    cases hpd : process_data data with
    | nil => rw [hpd] at hs; exact absurd hs (by simp)
    | cons c cs =>
      rw [hpd] at hs
      simp only [AnalyzeResult.success.injEq] at hs
      subst hs
      rw [List.getLast?_eq_getLast (c :: cs) (List.cons_ne_nil c cs)]
      cases hg : ((c :: cs).getLast (List.cons_ne_nil c cs)).is_green with
      | true => simp [hg]
      | false => simp [hg]

/-- C10 witness: the trend conjunct at the concrete demo symbol, whose
last classified bar is green. -/
theorem scan_bucket_invariants_witness :
    analysisDemoA.current_trend = "bullish" ↔
      (process_data [barRedDemo, barGreenDemo]).getLast?.map CBar.is_green = some true :=
  (scan_bucket_invariants (fun s => Except.ok (analyze_stock fetchDemo nowDemo s))
      ["A"]).2.2.2.2 fetchDemo nowDemo "A" [barRedDemo, barGreenDemo] analysisDemoA
    (by decide) (by decide)

/-! C8: mock generator determinism -/

/-- C8: the synthetic bar generator is deterministic per symbol: its
output with default start and end dates depends only on the symbol and
the current instant, not on the ambient RNG state, because the state is
re-seeded from the symbol hash before any draw; hence two calls with
the same symbol and the same now produce identical bar sequences. -/
theorem mock_generator_deterministic (σ : Type) (M : RngModel σ) (g1 g2 : σ)
    (symbol : String) (now : Date) :
    (generate_mock_data M g1 symbol now none none).1 =
      (generate_mock_data M g2 symbol now none none).1 := rfl
